import Mathlib

/-
Verification development for the bug-report-simmodel repository.

The definitions below are a shallow embedding of the Python sources:
simutils.py (empirical distributions, replication harness), simmodel.py
(discrete-event bug-report process model) and payoffgetter.py (strategy
profile configuration).  Machine floats are modelled as rationals, Python
exceptions as an explicit error type, and randomness is made explicit:
scipy rvs calls become function parameters and the per-replication model
run becomes a function of the replication index.
-/

/-- Minimum observation count required by the continuous empirical
distribution, simutils.py line 29. -/
def MINIMUM_OBSERVATIONS : ℕ := 3

/-- Python exceptions relevant to distribution construction.  The spec
names an InsufficientDataError; the constructor is included so that the
claim about it is statable against the code. -/
inductive PyError where
  | valueError (msg : String)
  | insufficientDataError
deriving DecidableEq

/-- Minimum of a nonempty list of rationals, as numpy computes the
histogram range lower bound; 0 on the empty list. -/
def listMin : List ℚ → ℚ
  | [] => 0
  | x :: xs => xs.foldl min x

/-- Maximum of a nonempty list of rationals; 0 on the empty list. -/
def listMax : List ℚ → ℚ
  | [] => 0
  | x :: xs => xs.foldl max x

/-- Lower end of the numpy histogram range: the minimum observation,
padded by one half when all observations coincide (numpy behaviour for a
degenerate range). -/
def histLo (obs : List ℚ) : ℚ :=
  if listMin obs = listMax obs then listMin obs - 1/2 else listMin obs

/-- Upper end of the numpy histogram range, padded by one half in the
degenerate all-equal case. -/
def histHi (obs : List ℚ) : ℚ :=
  if listMin obs = listMax obs then listMax obs + 1/2 else listMax obs

/-- Common width of the histogram bins. -/
def binWidth (obs : List ℚ) (n_bins : ℕ) : ℚ :=
  (histHi obs - histLo obs) / n_bins

/-- Histogram bin edges: numpy linspace from histLo to histHi with
n_bins + 1 points. -/
def bin_edges (obs : List ℚ) (n_bins : ℕ) : List ℚ :=
  (List.range (n_bins + 1)).map fun i : ℕ => histLo obs + (i : ℚ) * binWidth obs n_bins

/-- Index of the bin receiving an observation: floor of the scaled offset,
clamped into the last bin exactly as numpy places the right-edge value. -/
def binIdx (obs : List ℚ) (n_bins : ℕ) (x : ℚ) : ℕ :=
  min (Int.toNat ⌊(x - histLo obs) / binWidth obs n_bins⌋) (n_bins - 1)

/-- Number of observations falling into each bin. -/
def binCounts (obs : List ℚ) (n_bins : ℕ) : List ℕ :=
  (List.range n_bins).map fun i => obs.countP fun x => decide (binIdx obs n_bins x = i)

/-- Density-normalised histogram, numpy histogram with density true:
each count divided by total count times bin width. -/
def histDensity (obs : List ℚ) (n_bins : ℕ) : List ℚ :=
  (binCounts obs n_bins).map fun c : ℕ =>
    (c : ℚ) / (((binCounts obs n_bins).sum : ℚ) * binWidth obs n_bins)

/-- Consecutive differences of a list, as numpy diff. -/
def diffList (l : List ℚ) : List ℚ := l.zipWith (fun a b => b - a) l.tail

/-- Cumulative values of inverse_transform_sampling, simutils.py lines
67-69: a leading zero followed by the cumulative sums of hist times the
edge differences. -/
def cum_values (obs : List ℚ) (n_bins : ℕ) : List ℚ :=
  ((histDensity obs n_bins).zipWith (fun h d => h * d)
    (diffList (bin_edges obs n_bins))).scanl (· + ·) 0

/-- Evaluation of the scipy interp1d linear interpolant with knots xs and
values ys at the point u: searchsorted on the left, index clipped into
the valid range, then the two-point linear formula.  The knot list
cum_values is already sorted, so searchsorted coincides with the first
index whose knot is at least u. -/
def interp_eval (xs ys : List ℚ) (u : ℚ) : ℚ :=
  let idx := min (max (xs.findIdx fun x => decide (u ≤ x)) 1) (xs.length - 1)
  let x0 := xs.getD (idx - 1) 0
  let x1 := xs.getD idx 0
  let y0 := ys.getD (idx - 1) 0
  let y1 := ys.getD idx 0
  y0 + (u - x0) * (y1 - y0) / (x1 - x0)

/-- Abstraction of a scipy frozen distribution family: its rvs sampler
with loc and scale, or with shape, loc and scale.  The sampler functions
stand for one draw of the underlying random variate. -/
structure ScipyDist where
  rvs2 : ℚ → ℚ → ℚ
  rvs3 : ℚ → ℚ → ℚ → ℚ

/-- State of a ContinuousEmpiricalDistribution object.  Attributes that
Python only assigns on some constructor paths are Option valued; the
stored interp1d closure is represented by its defining data, the pair of
cum_values knots and bin_edges values. -/
structure ContinuousEmpiricalDistribution where
  distribution : Option ScipyDist
  parameters : Option (List ℚ)
  observations : Option (List ℚ)
  inverse_cdf : Option (List ℚ × List ℚ)

/-- Constructor of ContinuousEmpiricalDistribution, simutils.py lines
44-57: with observations supplied it demands at least
MINIMUM_OBSERVATIONS of them, raising a ValueError otherwise, and builds
the inverse CDF with the default 40 bins; distribution and parameters
are kept only when both are supplied. -/
def ContinuousEmpiricalDistribution.init (observations : Option (List ℚ))
    (distribution : Option ScipyDist) (parameters : Option (List ℚ)) :
    Except PyError ContinuousEmpiricalDistribution :=
  match observations with
  | some obs =>
    if obs.length < MINIMUM_OBSERVATIONS then
      .error (.valueError ("Only " ++ toString obs.length ++ " were provided."))
    else
      .ok { distribution := if distribution.isSome && parameters.isSome then distribution else none
            parameters := if distribution.isSome && parameters.isSome then parameters else none
            observations := some obs
            inverse_cdf := some (cum_values obs 40, bin_edges obs 40) }
  | none =>
    .ok { distribution := if distribution.isSome && parameters.isSome then distribution else none
          parameters := if distribution.isSome && parameters.isSome then parameters else none
          observations := none
          inverse_cdf := none }

/-- Parametric sampling, simutils.py lines 74-89: a variate is produced
only for parameter tuples of length two or three; any other length
leaves the local variable unassigned, modelled as none. -/
def generate_from_scipy (dist : ScipyDist) (parameter_tuple : List ℚ) : Option ℚ :=
  if parameter_tuple.length = 2 then
    some (dist.rvs2 (parameter_tuple.getD 0 0) (parameter_tuple.getD 1 0))
  else if parameter_tuple.length = 3 then
    some (dist.rvs3 (parameter_tuple.getD 0 0) (parameter_tuple.getD 1 0) (parameter_tuple.getD 2 0))
  else
    none

/-- Sampling, simutils.py lines 91-105, with the uniform draw supplied
explicitly (the branch drawing it internally is randomness outside this
embedding).  Parametric mode delegates to generate_from_scipy; otherwise
the stored inverse CDF is evaluated, and a missing inverse CDF attribute
is modelled as none. -/
def ContinuousEmpiricalDistribution.generate (d : ContinuousEmpiricalDistribution)
    (rand_uniform : ℚ) : Option ℚ :=
  match d.distribution, d.parameters with
  | some dist, some params => generate_from_scipy dist params
  | _, _ =>
    match d.inverse_cdf with
    | some (xs, ys) => some (interp_eval xs ys rand_uniform)
    | none => none

/-- State of a DiscreteEmpiricalDistribution object, simutils.py lines
109-119: a name, the support values and their probabilities. -/
structure DiscreteEmpiricalDistribution where
  name : String
  values : List ℚ
  probabilities : List ℚ

/-- Probability lookup, simutils.py lines 131-133: the dict
comprehension keeps, for a repeated value, the probability at its last
index, and the defaultdict wrapper sends every other value to zero. -/
def DiscreteEmpiricalDistribution.get_probabilities
    (d : DiscreteEmpiricalDistribution) : ℚ → ℚ :=
  fun v =>
    match (d.values.zip d.probabilities).reverse.find? (fun p => decide (p.1 = v)) with
    | some p => p.2
    | none => 0

/-- Statements a SimPy process can yield, as used by the process
execution method of BugReport in simmodel.py: request a resource unit,
hold for a simulated duration, release the unit. -/
inductive Stmt where
  | request
  | hold (d : ℚ)
  | release
deriving DecidableEq

/-- Body of BugReport.arrive, simmodel.py lines 41-56: request the
developer resource, hold it for the fix effort, then release it. -/
def arrive (bug_effort : ℚ) : List Stmt :=
  [.request, .hold bug_effort, .release]

/-- A suspended SimPy process: its identifier and remaining statements. -/
structure Proc where
  pid : ℕ
  prog : List Stmt
deriving DecidableEq

/-- State of the SimPy discrete-event kernel restricted to the features
simmodel.py uses: current time, the FIFO run queue of processes ready at
the current instant, future scheduled continuations, the developer
resource with its capacity and held-unit count and FIFO wait queue, and
a log of finished processes with their completion times. -/
structure SimState where
  time : ℚ
  ready : List Proc
  future : List (ℚ × Proc)
  inUse : ℕ
  capacity : ℕ
  waitQ : List Proc
  finished : List (ℕ × ℚ)
deriving DecidableEq

/-- One scheduler step of the discrete-event kernel.  A ready process
executes its next statement: a request is granted immediately when a
unit is free and otherwise queues the process; a hold schedules the
continuation at the current time plus the duration; a release hands the
unit to the first waiter if any, else returns it to the pool.  With no
ready process, time advances to the earliest future event and all events
at that instant become ready in scheduling order; with no future event
either, the state is final and the step is the identity. -/
def step (s : SimState) : SimState :=
  match s.ready with
  | p :: rest =>
    match p.prog with
    | [] => { s with ready := rest, finished := s.finished ++ [(p.pid, s.time)] }
    | .request :: k =>
      if s.inUse < s.capacity then
        { s with ready := ⟨p.pid, k⟩ :: rest, inUse := s.inUse + 1 }
      else
        { s with ready := rest, waitQ := s.waitQ ++ [⟨p.pid, k⟩] }
    | .hold d :: k =>
      { s with ready := rest, future := s.future ++ [(s.time + d, ⟨p.pid, k⟩)] }
    | .release :: k =>
      match s.waitQ with
      | [] => { s with ready := ⟨p.pid, k⟩ :: rest, inUse := s.inUse - 1 }
      | w :: ws => { s with ready := (⟨p.pid, k⟩ :: rest) ++ [w], waitQ := ws }
  | [] =>
    match (s.future.map Prod.fst).min? with
    | none => s
    | some t =>
      { s with time := t,
               ready := (s.future.filter fun e => decide (e.1 = t)).map Prod.snd,
               future := s.future.filter fun e => decide (e.1 ≠ t) }

/-- Iterated scheduler steps. -/
def stepN : ℕ → SimState → SimState
  | 0, s => s
  | n + 1, s => step (stepN n s)

/-- Initial state of the end-to-end scenario: a developer resource of
capacity one and two bug reports, both arriving at time zero, each with
fix effort ten. -/
def capacityOneScenario : SimState :=
  { time := 0
    ready := [⟨1, arrive 10⟩, ⟨2, arrive 10⟩]
    future := []
    inUse := 0
    capacity := 1
    waitQ := []
    finished := [] }

/-- Per-reporter monitor record produced by one model run, as read by
launch_simulation: the resolved-defect monitor count and the three
per-priority counter maps. -/
structure ReporterInfo where
  resolved_monitor : ℕ
  priority_counters : List (ℕ × ℕ)
  report_counters : List (ℕ × ℕ)
  resolved_counters : List (ℕ × ℕ)
deriving DecidableEq

/-- Per-priority monitor record produced by one model run: the completed
monitor count and the reported tally. -/
structure PriorityInfo where
  completed : ℕ
  reported : ℕ
deriving DecidableEq

/-- Output of one replication of the simulation model, the pair that
simmodel.run_model returns to launch_simulation.  The model run itself
is regarded as a collaborator here; replications are told apart by their
index, which stands for the freshly reseeded random stream of each
replication. -/
structure RunOutput where
  reporter_monitors : List (String × ReporterInfo)
  priority_monitors : List (ℕ × PriorityInfo)
deriving DecidableEq

/-- A value stored in the result dictionary of launch_simulation: a
reporter-name-keyed count map, a priority-keyed count map, or a
reporter-name-keyed map of counter maps. -/
inductive SimValue where
  | rmap (m : List (String × ℕ))
  | pmap (m : List (ℕ × ℕ))
  | cmap (m : List (String × List (ℕ × ℕ)))
deriving DecidableEq

/-- Extraction of a per-reporter metric map, simutils.py lines 531-542;
the metric-name string of the source selects one of the three counter
fields, modelled as the corresponding projection. -/
def gather_reporter_statistics (reporter_monitors : List (String × ReporterInfo))
    (metric : ReporterInfo → List (ℕ × ℕ)) : List (String × List (ℕ × ℕ)) :=
  reporter_monitors.map fun p => (p.1, metric p.2)

/-- Accumulator completed_per_reporter of launch_simulation: per
replication, the per-reporter resolved-monitor counts. -/
def completed_per_reporter (run_model : ℕ → RunOutput) (max_iterations : ℕ) : List SimValue :=
  (List.range max_iterations).map fun i =>
    .rmap ((run_model i).reporter_monitors.map fun p => (p.1, p.2.resolved_monitor))

/-- Accumulator completed_per_priority of launch_simulation: per
replication, the per-priority completed-monitor counts. -/
def completed_per_priority (run_model : ℕ → RunOutput) (max_iterations : ℕ) : List SimValue :=
  (List.range max_iterations).map fun i =>
    .pmap ((run_model i).priority_monitors.map fun p => (p.1, p.2.completed))

/-- Accumulator bugs_per_reporter of launch_simulation: per replication,
the gathered priority counters. -/
def bugs_per_reporter (run_model : ℕ → RunOutput) (max_iterations : ℕ) : List SimValue :=
  (List.range max_iterations).map fun i =>
    .cmap (gather_reporter_statistics (run_model i).reporter_monitors ReporterInfo.priority_counters)

/-- Accumulator reports_per_reporter of launch_simulation: per
replication, the gathered report counters. -/
def reports_per_reporter (run_model : ℕ → RunOutput) (max_iterations : ℕ) : List SimValue :=
  (List.range max_iterations).map fun i =>
    .cmap (gather_reporter_statistics (run_model i).reporter_monitors ReporterInfo.report_counters)

/-- Accumulator resolved_per_reporter of launch_simulation: per
replication, the gathered resolved counters. -/
def resolved_per_reporter (run_model : ℕ → RunOutput) (max_iterations : ℕ) : List SimValue :=
  (List.range max_iterations).map fun i =>
    .cmap (gather_reporter_statistics (run_model i).reporter_monitors ReporterInfo.resolved_counters)

/-- Accumulator reported_per_priotity of launch_simulation, spelled as
in the source: per replication, the per-priority reported tallies. -/
def reported_per_priotity (run_model : ℕ → RunOutput) (max_iterations : ℕ) : List SimValue :=
  (List.range max_iterations).map fun i =>
    .pmap ((run_model i).priority_monitors.map fun p => (p.1, p.2.reported))

/-- Sequential replication harness, simutils.py lines 462-528: runs the
model once per replication index and accumulates six per-replication
sequences, returned as the dictionary literal of the source in its key
order. -/
def launch_simulation (run_model : ℕ → RunOutput) (max_iterations : ℕ) :
    List (String × List SimValue) :=
  [("completed_per_reporter", completed_per_reporter run_model max_iterations),
   ("completed_per_priority", completed_per_priority run_model max_iterations),
   ("bugs_per_reporter", bugs_per_reporter run_model max_iterations),
   ("reports_per_reporter", reports_per_reporter run_model max_iterations),
   ("resolved_per_reporter", resolved_per_reporter run_model max_iterations),
   ("reported_per_priotity", reported_per_priotity run_model max_iterations)]

/-- Worker wrapper, simutils.py lines 438-459: runs launch_simulation on
the worker input and repackages the same six sequences under the same
keys. -/
def launch_simulation_wrapper (run_model : ℕ → RunOutput) (max_iterations : ℕ) :
    List (String × List SimValue) :=
  launch_simulation run_model max_iterations

/-- Lookup of one sequence in a harness result dictionary. -/
def dictGetList (d : List (String × List SimValue)) (k : String) : List SimValue :=
  ((d.find? fun p => decide (p.1 = k)).map Prod.snd).getD []

/-- Parallel replication harness, simutils.py lines 367-435: every one
of the parallel_blocks workers receives the integer quotient of
max_iterations by parallel_blocks as its replication count, and the
worker outputs are concatenated per key in worker order. -/
def launch_simulation_parallel (run_model : ℕ → RunOutput)
    (max_iterations parallel_blocks : ℕ) : List (String × List SimValue) :=
  let samples_per_worker := max_iterations / parallel_blocks
  let worker_outputs := (List.range parallel_blocks).map fun _ =>
    launch_simulation_wrapper run_model samples_per_worker
  [("completed_per_reporter", (worker_outputs.map fun o => dictGetList o "completed_per_reporter").flatten),
   ("completed_per_priority", (worker_outputs.map fun o => dictGetList o "completed_per_priority").flatten),
   ("bugs_per_reporter", (worker_outputs.map fun o => dictGetList o "bugs_per_reporter").flatten),
   ("reports_per_reporter", (worker_outputs.map fun o => dictGetList o "reports_per_reporter").flatten),
   ("resolved_per_reporter", (worker_outputs.map fun o => dictGetList o "resolved_per_reporter").flatten),
   ("reported_per_priotity", (worker_outputs.map fun o => dictGetList o "reported_per_priotity").flatten)]

/-- A value of a reporter-configuration dictionary entry. -/
inductive PyVal where
  | num (n : ℕ)
  | rat (q : ℚ)
  | str (s : String)
  | strat (s : String)
deriving DecidableEq

/-- A reporter configuration, modelled as the Python dictionary it is:
an insertion-ordered association list over string keys. -/
abbrev ReporterConfig := List (String × PyVal)

/-- Python dictionary assignment: an existing key keeps its position and
gets the new value, a fresh key is appended. -/
def dictSet (d : ReporterConfig) (k : String) (v : PyVal) : ReporterConfig :=
  if d.any fun p => decide (p.1 = k) then
    d.map fun p => if p.1 = k then (k, v) else p
  else d ++ [(k, v)]

/-- Python dictionary lookup on a reporter configuration. -/
def dictGet (d : ReporterConfig) (k : String) : Option PyVal :=
  (d.find? fun p => decide (p.1 = k)).map Prod.snd

/-- The team entry of a reporter configuration. -/
def getTeam (config : ReporterConfig) : ℕ :=
  match dictGet config "team" with
  | some (.num n) => n
  | _ => 0

/-- Strategy-profile assignment, payoffgetter.py lines 220-227: every
configuration gets the strategy that the profile map holds for its team.
The strategy map is total here, as the source indexes it only with teams
it was built for. -/
def configure_strategies_per_team (player_configuration : List ReporterConfig)
    (strategy_map : ℕ → PyVal) : List ReporterConfig :=
  player_configuration.map fun config =>
    dictSet config "strategy" (strategy_map (getTeam config))

/-- A minimal replication output used to instantiate the harness
theorems on concrete data. -/
def trivialRun : RunOutput :=
  { reporter_monitors := [("tester_a", ⟨2, [(1, 1)], [(1, 2)], [(1, 1)]⟩)]
    priority_monitors := [(1, ⟨2, 2⟩)] }

/-- The distribution object built from the observations one, two,
three. -/
def cedFromThree : ContinuousEmpiricalDistribution :=
  { distribution := none
    parameters := none
    observations := some [1, 2, 3]
    inverse_cdf := some (cum_values [1, 2, 3] 40, bin_edges [1, 2, 3] 40) }

/-- The distribution object built from three identical observations. -/
def cedDegenerate : ContinuousEmpiricalDistribution :=
  { distribution := none
    parameters := none
    observations := some [5, 5, 5]
    inverse_cdf := some (cum_values [5, 5, 5] 40, bin_edges [5, 5, 5] 40) }

/-- A concrete scipy distribution stand-in. -/
def scipyExample : ScipyDist :=
  { rvs2 := fun a b => a + b
    rvs3 := fun a b c => a + b + c }

/-- A distribution object in parametric mode with a loc-scale pair. -/
def cedParametric : ContinuousEmpiricalDistribution :=
  { distribution := some scipyExample
    parameters := some [0, 1]
    observations := none
    inverse_cdf := none }

/-- A concrete discrete distribution used to instantiate the lookup
theorem. -/
def dedExample : DiscreteEmpiricalDistribution :=
  { name := "priorities", values := [1, 3], probabilities := [3/4, 1/4] }

/-- A concrete one-reporter player configuration. -/
def playersExample : List ReporterConfig :=
  [[("name", PyVal.str "tester_a"), ("team", PyVal.num 1), ("strategy", PyVal.str "old")]]

/-- C1, part of the amended claim: construction with fewer than three
observations raises a ValueError whose message reports the count; with
at least three observations it succeeds and stores the inverse CDF built
from the default forty bins. -/
theorem c1_construction_threshold (obs : List ℚ) :
    (obs.length < 3 →
        ContinuousEmpiricalDistribution.init (some obs) none none =
          .error (.valueError ("Only " ++ toString obs.length ++ " were provided."))) ∧
      (3 ≤ obs.length →
        ContinuousEmpiricalDistribution.init (some obs) none none =
          .ok { distribution := none, parameters := none, observations := some obs,
                inverse_cdf := some (cum_values obs 40, bin_edges obs 40) }) := by
  constructor
  · intro h
    simp [ContinuousEmpiricalDistribution.init, MINIMUM_OBSERVATIONS, h]
  · intro h
    simp [ContinuousEmpiricalDistribution.init, MINIMUM_OBSERVATIONS, Nat.not_lt.mpr h]

/-- C1 witness: three observations construct successfully. -/
theorem c1_construction_threshold_witness :
    ContinuousEmpiricalDistribution.init (some [1, 2, 3]) none none =
      .ok { distribution := none, parameters := none, observations := some [1, 2, 3],
            inverse_cdf := some (cum_values [1, 2, 3] 40, bin_edges [1, 2, 3] 40) } :=
  (c1_construction_threshold [1, 2, 3]).2 (by decide)

/-- C1 counterexample to the claim as stated: with two observations the
constructor raises a ValueError, which is not an InsufficientDataError;
no such exception class exists in the code. -/
theorem c1_value_error_cex :
    ContinuousEmpiricalDistribution.init (some [1, 2]) none none =
        .error (.valueError "Only 2 were provided.") ∧
      PyError.valueError "Only 2 were provided." ≠ PyError.insufficientDataError := by
  exact ⟨by with_unfolding_all rfl, by decide⟩

/-- C7: non-parametric generate is a pure function of the construction
observations and the supplied uniform draw: any two distribution objects
constructed from the same observations return the same variate for the
same draw. -/
theorem c7_generate_deterministic (obs : List ℚ) (u : ℚ)
    (d1 d2 : ContinuousEmpiricalDistribution)
    (h1 : ContinuousEmpiricalDistribution.init (some obs) none none = .ok d1)
    (h2 : ContinuousEmpiricalDistribution.init (some obs) none none = .ok d2) :
    d1.generate u = d2.generate u := by
  have h := h1.symm.trans h2
  cases d1
  cases d2
  cases h1.symm.trans h2
  rfl

/-- C7 witness at the observations one, two, three and the draw one
half. -/
theorem c7_generate_deterministic_witness :
    cedFromThree.generate (1/2) = cedFromThree.generate (1/2) :=
  c7_generate_deterministic [1, 2, 3] (1/2) cedFromThree cedFromThree
    (by with_unfolding_all rfl) (by with_unfolding_all rfl)

/-- C9: in parametric mode generate delegates to generate_from_scipy,
and the latter produces a variate exactly when the stored parameter
tuple has length two or three; any other length reaches no assignment of
the variate. -/
theorem c9_parametric_mode_shape (dist : ScipyDist) (params : List ℚ)
    (d : ContinuousEmpiricalDistribution) (u : ℚ)
    (hd : d.distribution = some dist) (hp : d.parameters = some params) :
    d.generate u = generate_from_scipy dist params ∧
      ((generate_from_scipy dist params).isSome ↔
        params.length = 2 ∨ params.length = 3) := by
  constructor
  · unfold ContinuousEmpiricalDistribution.generate
    rw [hd, hp]
  · unfold generate_from_scipy
    by_cases h2 : params.length = 2
    · simp [h2]
    · by_cases h3 : params.length = 3 <;> simp [h2, h3]

/-- C9 witness: a loc-scale parameter pair yields a variate. -/
theorem c9_parametric_mode_shape_witness :
    cedParametric.generate 0 = generate_from_scipy scipyExample [0, 1] ∧
      ((generate_from_scipy scipyExample [0, 1]).isSome ↔
        ([0, 1] : List ℚ).length = 2 ∨ ([0, 1] : List ℚ).length = 3) :=
  c9_parametric_mode_shape scipyExample [0, 1] cedParametric 0 rfl rfl

/-- Single scheduler steps cannot push the held-unit count of the
developer resource above its capacity. -/
theorem step_inUse_le_capacity (s : SimState) (h : s.inUse ≤ s.capacity) :
    (step s).inUse ≤ (step s).capacity := by
  rcases s with ⟨t, ready, future, inUse, capacity, waitQ, fin⟩
  simp only at h
  cases ready with
  | nil =>
    unfold step
    cases hm : (future.map Prod.fst).min? with
    | none => simpa using h
    | some t' => simpa using h
  | cons p rest =>
    rcases p with ⟨pid, prog⟩
    cases prog with
    | nil => simpa [step] using h
    | cons st k =>
      cases st with
      | request =>
        unfold step
        by_cases hc : inUse < capacity
        · simp only [hc, if_true]
          exact hc
        · simpa [hc] using h
      | hold d => simpa [step] using h
      | release =>
        unfold step
        cases waitQ with
        | nil => simpa using Nat.le_trans (Nat.sub_le _ _) h
        | cons w ws => simpa using h

/-- C5: along every run of the scheduler the number of held
developer-pool units never exceeds the capacity, and the bug-report
process body acquires exactly once, releases exactly once, and releases
only after its hold, which follows the acquisition. -/
theorem c5_capacity_invariant :
    (∀ (s : SimState) (n : ℕ), s.inUse ≤ s.capacity →
        (stepN n s).inUse ≤ (stepN n s).capacity) ∧
      ∀ bug_effort : ℚ,
        (arrive bug_effort).count Stmt.request = 1 ∧
          (arrive bug_effort).count Stmt.release = 1 ∧
          [Stmt.request, Stmt.hold bug_effort, Stmt.release].Sublist (arrive bug_effort) := by
  constructor
  · intro s n h
    induction n with
    | zero => exact h
    | succ m ih => exact step_inUse_le_capacity _ ih
  · intro e
    exact ⟨rfl, rfl, List.Sublist.refl _⟩

/-- C5 witness: the invariant holds after four steps of the concrete
capacity-one scenario. -/
theorem c5_capacity_invariant_witness :
    (stepN 4 capacityOneScenario).inUse ≤ (stepN 4 capacityOneScenario).capacity :=
  c5_capacity_invariant.1 capacityOneScenario 4 (by decide)

/-- Ten steps fully drain the capacity-one scenario. -/
theorem scenarioFinal : stepN 10 capacityOneScenario =
    { time := 20, ready := [], future := [], inUse := 0, capacity := 1,
      waitQ := [], finished := [(1, 10), (2, 20)] } := by
  with_unfolding_all decide

/-- The drained scenario state is a fixed point of the scheduler. -/
theorem scenarioFixed : step (stepN 10 capacityOneScenario) = stepN 10 capacityOneScenario := by
  with_unfolding_all decide

/-- Running the drained scenario any longer changes nothing. -/
theorem scenarioStable (n : ℕ) :
    stepN (10 + n) capacityOneScenario = stepN 10 capacityOneScenario := by
  induction n with
  | zero => rfl
  | succ m ih =>
    show step (stepN (10 + m) capacityOneScenario) = _
    rw [ih, scenarioFixed]

/-- C6: with capacity one and two reports arriving at time zero, each
with fix effort ten, the first-arrived report resolves at time ten and
the second at time twenty, both are logged as resolved, and nothing
remains queued, running, or scheduled once the run has drained, however
long the clock is allowed to continue past the drain. -/
theorem c6_serialized_resolution (n : ℕ) :
    (stepN (10 + n) capacityOneScenario).finished = [(1, 10), (2, 20)] ∧
      (stepN (10 + n) capacityOneScenario).waitQ = [] ∧
      (stepN (10 + n) capacityOneScenario).ready = [] ∧
      (stepN (10 + n) capacityOneScenario).future = [] ∧
      (stepN (10 + n) capacityOneScenario).inUse = 0 ∧
      (stepN (10 + n) capacityOneScenario).time = 20 := by
  rw [scenarioStable, scenarioFinal]
  exact ⟨rfl, rfl, rfl, rfl, rfl, rfl⟩

/-- Rewriting the value at one key leaves find? for any other key
untouched. -/
theorem find?_map_setKey (d : ReporterConfig) (k k' : String) (v : PyVal)
    (hne : k' ≠ k) :
    (d.map fun p => if p.1 = k then (k, v) else p).find? (fun p => decide (p.1 = k')) =
      d.find? fun p => decide (p.1 = k') := by
  induction d with
  | nil => rfl
  | cons p d ih =>
    by_cases hp : p.1 = k
    · have h1 : ¬ (k = k') := fun h => hne h.symm
      have h2 : ¬ (p.1 = k') := hp ▸ h1
      simp only [List.map_cons, if_pos hp, List.find?_cons]
      simp [h1, h2, ih]
    · simp only [List.map_cons, if_neg hp, List.find?_cons]
      by_cases hq : p.1 = k'
      · simp [hq]
      · simp [hq, ih]

/-- Rewriting the value at a present key makes find? for that key
return the new value. -/
theorem find?_map_setKey_self (d : ReporterConfig) (k : String) (v : PyVal)
    (hmem : ∃ p ∈ d, p.1 = k) :
    (d.map fun p => if p.1 = k then (k, v) else p).find? (fun p => decide (p.1 = k)) =
      some (k, v) := by
  induction d with
  | nil => simp at hmem
  | cons p d ih =>
    by_cases hp : p.1 = k
    · simp [List.map_cons, if_pos hp, List.find?_cons]
    · simp only [List.map_cons, if_neg hp, List.find?_cons]
      have : ∃ q ∈ d, q.1 = k := by
        rcases hmem with ⟨q, hq, hqk⟩
        rcases List.mem_cons.mp hq with h | h
        · exact absurd (h ▸ hqk) hp
        · exact ⟨q, h, hqk⟩
      simp [hp, ih this]

/-- Assigning a key in a Python dictionary makes lookup of that key
return the assigned value. -/
theorem dictGet_dictSet_self (d : ReporterConfig) (k : String) (v : PyVal) :
    dictGet (dictSet d k v) k = some v := by
  unfold dictSet dictGet
  by_cases hany : d.any fun p => decide (p.1 = k)
  · rw [if_pos hany]
    have hmem : ∃ p ∈ d, p.1 = k := by
      rcases List.any_eq_true.mp hany with ⟨p, hp, hpk⟩
      exact ⟨p, hp, by simpa using hpk⟩
    rw [find?_map_setKey_self d k v hmem]
    rfl
  · rw [if_neg hany]
    have hnone : d.find? (fun p => decide (p.1 = k)) = none := by
      rw [List.find?_eq_none]
      intro x hx
      have := (List.any_eq_false.mp (Bool.of_not_eq_true hany)) x hx
      simpa using this
    simp [List.find?_append, hnone, List.find?_cons]

/-- Assigning one key in a Python dictionary leaves lookups of every
other key unchanged. -/
theorem dictGet_dictSet_other (d : ReporterConfig) (k k' : String) (v : PyVal)
    (hne : k' ≠ k) :
    dictGet (dictSet d k v) k' = dictGet d k' := by
  unfold dictSet dictGet
  by_cases hany : d.any fun p => decide (p.1 = k)
  · rw [if_pos hany, find?_map_setKey d k k' v hne]
  · rw [if_neg hany]
    have h1 : ¬ (k = k') := fun h => hne h.symm
    simp [List.find?_append, List.find?_cons, h1]

/-- C8: configuring a strategy profile keeps the player list length and,
entry by entry, only writes the strategy key, with the written value
taken from the profile map at the player team; every other key of every
configuration reads unchanged. -/
theorem c8_strategy_frame (player_configuration : List ReporterConfig)
    (strategy_map : ℕ → PyVal) :
    (configure_strategies_per_team player_configuration strategy_map).length =
        player_configuration.length ∧
      List.Forall₂ (fun c c' =>
          (∀ k, k ≠ "strategy" → dictGet c' k = dictGet c k) ∧
            dictGet c' "strategy" = some (strategy_map (getTeam c)))
        player_configuration
        (configure_strategies_per_team player_configuration strategy_map) := by
  constructor
  · simp [configure_strategies_per_team]
  · induction player_configuration with
    | nil => exact List.Forall₂.nil
    | cons c cs ih =>
      refine List.Forall₂.cons ⟨?_, ?_⟩ ih
      · intro k hk
        exact dictGet_dictSet_other c "strategy" k _ hk
      · exact dictGet_dictSet_self c "strategy" _

/-- C8 witness on a concrete one-player configuration: the length is
kept, the team key reads unchanged and the strategy key reads the
profile entry for team one. -/
theorem c8_strategy_frame_witness :
    (configure_strategies_per_team playersExample fun t => PyVal.strat (toString t)).length =
        playersExample.length ∧
      dictGet ((configure_strategies_per_team playersExample fun t =>
          PyVal.strat (toString t)).headD []) "team" = some (PyVal.num 1) ∧
      dictGet ((configure_strategies_per_team playersExample fun t =>
          PyVal.strat (toString t)).headD []) "strategy" = some (PyVal.strat "1") := by
  have h := c8_strategy_frame playersExample fun t => PyVal.strat (toString t)
  refine ⟨h.1, ?_, ?_⟩
  · have h2 := h.2
    cases h2 with
    | cons hrel _ =>
      have := hrel.1 "team" (by decide)
      simpa [playersExample, dictGet] using this
  · have h2 := h.2
    cases h2 with
    | cons hrel _ =>
      have := hrel.2
      simpa [playersExample, getTeam, dictGet] using this

/-- A value outside the support finds no pair in the reversed
value-probability zip. -/
theorem find?_zip_reverse_none (vs ps : List ℚ) (v : ℚ) (hv : v ∉ vs) :
    ((vs.zip ps).reverse.find? fun p => decide (p.1 = v)) = none := by
  rw [List.find?_eq_none]
  rintro ⟨a, b⟩ hx
  have ha : a ∈ vs := (List.of_mem_zip (List.mem_reverse.mp hx)).1
  simp only [decide_eq_true_eq]
  rintro rfl
  exact hv ha

/-- With distinct support values, the reversed zip lookup at the i-th
value returns exactly the i-th value-probability pair. -/
theorem find?_zip_reverse_nodup (vs ps : List ℚ) (hnd : vs.Nodup)
    (hl : vs.length = ps.length) (i : ℕ) (hi : i < vs.length) :
    ((vs.zip ps).reverse.find? fun p => decide (p.1 = vs.get ⟨i, hi⟩)) =
      some (vs.get ⟨i, hi⟩, ps.get ⟨i, hl ▸ hi⟩) := by
  induction vs generalizing ps i with
  | nil => exact absurd hi (by simp)
  | cons a vs ih =>
    cases ps with
    | nil => simp at hl
    | cons b ps =>
      have hl' : vs.length = ps.length := by simpa using hl
      cases i with
      | zero =>
        have hv : a ∉ vs := (List.nodup_cons.mp hnd).1
        have hget : (a :: vs).get ⟨0, hi⟩ = a := rfl
        rw [hget]
        simp only [List.zip_cons_cons, List.reverse_cons, List.find?_append]
        rw [find?_zip_reverse_none vs ps a hv]
        simp [List.find?_cons]
      | succ j =>
        have hj : j < vs.length := by simpa using hi
        have hget : (a :: vs).get ⟨j + 1, hi⟩ = vs.get ⟨j, hj⟩ := rfl
        rw [hget]
        simp only [List.zip_cons_cons, List.reverse_cons, List.find?_append]
        rw [ih ps (List.nodup_cons.mp hnd).2 hl' j hj]
        rfl

/-- C10: probability lookup is total: every support value maps to its
stored probability and every value outside the support maps to zero
instead of failing.  The hypotheses record the state that construction
establishes: distinct support values and aligned list lengths. -/
theorem c10_probability_lookup_total (d : DiscreteEmpiricalDistribution)
    (hnd : d.values.Nodup) (hl : d.values.length = d.probabilities.length) :
    (∀ i (hi : i < d.values.length),
        d.get_probabilities (d.values.get ⟨i, hi⟩) =
          d.probabilities.get ⟨i, hl ▸ hi⟩) ∧
      ∀ v, v ∉ d.values → d.get_probabilities v = 0 := by
  constructor
  · intro i hi
    unfold DiscreteEmpiricalDistribution.get_probabilities
    rw [find?_zip_reverse_nodup d.values d.probabilities hnd hl i hi]
  · intro v hv
    unfold DiscreteEmpiricalDistribution.get_probabilities
    rw [find?_zip_reverse_none d.values d.probabilities v hv]

/-- C10 witness on a concrete two-value distribution: the first support
value reads its probability and an unseen value reads zero. -/
theorem c10_probability_lookup_total_witness :
    dedExample.get_probabilities 1 = 3/4 ∧ dedExample.get_probabilities 7 = 0 := by
  have h := c10_probability_lookup_total dedExample (by decide) (by decide)
  exact ⟨h.1 0 (by decide), h.2 7 (by decide)⟩

/-- Indexing a map over a range picks the function value at the index. -/
theorem getD_map_range {α : Type} (f : ℕ → α) (mi j : ℕ) (d : α) (h : j < mi) :
    ((List.range mi).map f).getD j d = f j := by
  rw [List.getD_eq_getElem _ _ (by simpa using h)]
  simp

/-- Flattening identical blocks multiplies the block length by the block
count. -/
theorem length_flatten_const {α : Type} (pb : ℕ) (l : List α) :
    ((List.range pb).map fun _ => l).flatten.length = pb * l.length := by
  induction pb with
  | zero => simp
  | succ m ih =>
    rw [List.range_succ, List.map_append, List.flatten_append]
    simp [ih, Nat.succ_mul]

/-- The six sequences of the harness dictionary read back under their
keys. -/
theorem dictGetList_launch (rm : ℕ → RunOutput) (mi : ℕ) :
    dictGetList (launch_simulation rm mi) "completed_per_reporter" = completed_per_reporter rm mi ∧
      dictGetList (launch_simulation rm mi) "completed_per_priority" = completed_per_priority rm mi ∧
      dictGetList (launch_simulation rm mi) "bugs_per_reporter" = bugs_per_reporter rm mi ∧
      dictGetList (launch_simulation rm mi) "reports_per_reporter" = reports_per_reporter rm mi ∧
      dictGetList (launch_simulation rm mi) "resolved_per_reporter" = resolved_per_reporter rm mi ∧
      dictGetList (launch_simulation rm mi) "reported_per_priotity" = reported_per_priotity rm mi := by
  refine ⟨?_, ?_, ?_, ?_, ?_, ?_⟩ <;> simp [dictGetList, launch_simulation, List.find?_cons]

/-- C3, amended shape: the harness output is a dictionary of six
sequences, the five named ones plus reported_per_priotity, each of
length max_iterations; and the j-th entry of every sequence is the
monitor snapshot of the j-th replication, keyed by reporter name or by
priority class. -/
theorem c3_harness_output_shape (run_model : ℕ → RunOutput) (max_iterations : ℕ) :
    ((launch_simulation run_model max_iterations).map fun kv => (kv.1, kv.2.length)) =
        [("completed_per_reporter", max_iterations), ("completed_per_priority", max_iterations),
         ("bugs_per_reporter", max_iterations), ("reports_per_reporter", max_iterations),
         ("resolved_per_reporter", max_iterations), ("reported_per_priotity", max_iterations)] ∧
      ∀ j, j < max_iterations →
        (dictGetList (launch_simulation run_model max_iterations)
              "completed_per_reporter").getD j (.rmap []) =
            .rmap ((run_model j).reporter_monitors.map fun p => (p.1, p.2.resolved_monitor)) ∧
          (dictGetList (launch_simulation run_model max_iterations)
              "completed_per_priority").getD j (.pmap []) =
            .pmap ((run_model j).priority_monitors.map fun p => (p.1, p.2.completed)) ∧
          (dictGetList (launch_simulation run_model max_iterations)
              "bugs_per_reporter").getD j (.cmap []) =
            .cmap (gather_reporter_statistics (run_model j).reporter_monitors
              ReporterInfo.priority_counters) ∧
          (dictGetList (launch_simulation run_model max_iterations)
              "reports_per_reporter").getD j (.cmap []) =
            .cmap (gather_reporter_statistics (run_model j).reporter_monitors
              ReporterInfo.report_counters) ∧
          (dictGetList (launch_simulation run_model max_iterations)
              "resolved_per_reporter").getD j (.cmap []) =
            .cmap (gather_reporter_statistics (run_model j).reporter_monitors
              ReporterInfo.resolved_counters) ∧
          (dictGetList (launch_simulation run_model max_iterations)
              "reported_per_priotity").getD j (.pmap []) =
            .pmap ((run_model j).priority_monitors.map fun p => (p.1, p.2.reported)) := by
  constructor
  · simp [launch_simulation, completed_per_reporter, completed_per_priority,
      bugs_per_reporter, reports_per_reporter, resolved_per_reporter, reported_per_priotity]
  · intro j hj
    obtain ⟨e1, e2, e3, e4, e5, e6⟩ := dictGetList_launch run_model max_iterations
    rw [e1, e2, e3, e4, e5, e6]
    unfold completed_per_reporter completed_per_priority bugs_per_reporter
      reports_per_reporter resolved_per_reporter reported_per_priotity
    exact ⟨getD_map_range _ _ _ _ hj, getD_map_range _ _ _ _ hj, getD_map_range _ _ _ _ hj,
      getD_map_range _ _ _ _ hj, getD_map_range _ _ _ _ hj, getD_map_range _ _ _ _ hj⟩

/-- C3 witness: shape facts instantiated at a concrete one-replication
run. -/
theorem c3_harness_output_shape_witness :
    (dictGetList (launch_simulation (fun _ => trivialRun) 1) "completed_per_reporter").getD 0
        (.rmap []) =
      .rmap [("tester_a", 2)] := by
  have h := ((c3_harness_output_shape (fun _ => trivialRun) 1).2 0 (by decide)).1
  simpa [trivialRun] using h

/-- C3 counterexample to the claim as stated: the returned structure
holds six sequences, not exactly the five named ones; the sixth is
reported_per_priotity. -/
theorem c3_six_sequences_cex :
    ((launch_simulation (fun _ => trivialRun) 1).map Prod.fst).length = 6 ∧
      ((launch_simulation (fun _ => trivialRun) 1).map Prod.fst) ≠
        ["completed_per_reporter", "completed_per_priority", "bugs_per_reporter",
         "reports_per_reporter", "resolved_per_reporter"] := by
  constructor
  · rfl
  · decide

/-- C2, amended partition: every worker receives the integer quotient of
max_iterations by parallel_blocks, so each of the six concatenated
sequences has parallel_blocks times that quotient entries; the total is
max_iterations exactly when parallel_blocks divides max_iterations, the
remainder replications being dropped otherwise. -/
theorem c2_parallel_block_lengths (run_model : ℕ → RunOutput)
    (max_iterations parallel_blocks : ℕ) :
    ((launch_simulation_parallel run_model max_iterations parallel_blocks).map fun kv =>
        (kv.1, kv.2.length)) =
        [("completed_per_reporter", parallel_blocks * (max_iterations / parallel_blocks)),
         ("completed_per_priority", parallel_blocks * (max_iterations / parallel_blocks)),
         ("bugs_per_reporter", parallel_blocks * (max_iterations / parallel_blocks)),
         ("reports_per_reporter", parallel_blocks * (max_iterations / parallel_blocks)),
         ("resolved_per_reporter", parallel_blocks * (max_iterations / parallel_blocks)),
         ("reported_per_priotity", parallel_blocks * (max_iterations / parallel_blocks))] ∧
      (parallel_blocks ∣ max_iterations →
        parallel_blocks * (max_iterations / parallel_blocks) = max_iterations) := by
  constructor
  · obtain ⟨e1, e2, e3, e4, e5, e6⟩ :=
      dictGetList_launch run_model (max_iterations / parallel_blocks)
    simp only [launch_simulation_parallel, launch_simulation_wrapper, List.map_cons,
      List.map_nil, List.map_map, Function.comp_def]
    simp only [e1, e2, e3, e4, e5, e6, length_flatten_const]
    simp [completed_per_reporter, completed_per_priority, bugs_per_reporter,
      reports_per_reporter, resolved_per_reporter, reported_per_priotity]
  · exact fun h => Nat.mul_div_cancel' h

/-- C2 witness: eight replications over four workers give exactly eight
entries per sequence. -/
theorem c2_parallel_block_lengths_witness :
    ((launch_simulation_parallel (fun _ => trivialRun) 8 4).map fun kv =>
        (kv.1, kv.2.length)) =
        [("completed_per_reporter", 8), ("completed_per_priority", 8),
         ("bugs_per_reporter", 8), ("reports_per_reporter", 8),
         ("resolved_per_reporter", 8), ("reported_per_priotity", 8)] := by
  have h := c2_parallel_block_lengths (fun _ => trivialRun) 8 4
  have hd : (4 : ℕ) ∣ 8 := by decide
  have := h.2 hd
  rw [h.1, this]

/-- C2 counterexample to the claim as stated: five replications over
four workers yield only four concatenated entries per sequence, so the
remainder is dropped rather than absorbed by the last block. -/
theorem c2_remainder_dropped_cex :
    (dictGetList (launch_simulation_parallel (fun _ => trivialRun) 5 4)
        "completed_per_reporter").length = 4 ∧
      (dictGetList (launch_simulation_parallel (fun _ => trivialRun) 5 4)
        "completed_per_reporter").length ≠ 5 := by
  constructor
  · rfl
  · decide

/-- C4 counterexample to the claim as stated: three identical
observations build successfully, yet the draw one half generates the
variate 401/80, outside the closed interval from the minimum to the
maximum observation, both 5; the numpy histogram pads a degenerate range
by one half on each side. -/
theorem c4_degenerate_range_cex :
    ContinuousEmpiricalDistribution.init (some [5, 5, 5]) none none = .ok cedDegenerate ∧
      cedDegenerate.generate (1/2) = some (401/80) ∧
      listMin [5, 5, 5] = 5 ∧ listMax [5, 5, 5] = 5 ∧
      ¬ ((5 : ℚ) ≤ 401/80 ∧ (401/80 : ℚ) ≤ 5) := by
  refine ⟨by with_unfolding_all rfl, ?_, ?_, ?_, ?_⟩ <;> with_unfolding_all decide

theorem foldl_min_mem (xs : List ℚ) (a : ℚ) : xs.foldl min a = a ∨ xs.foldl min a ∈ xs := by
  induction xs generalizing a with
  | nil => exact Or.inl rfl
  | cons x xs ih =>
    rw [List.foldl_cons]
    rcases ih (min a x) with h | h
    · rcases min_choice a x with hm | hm
      · exact Or.inl (by rw [h, hm])
      · refine Or.inr ?_
        rw [h, hm]
        exact List.mem_cons_self x xs
    · exact Or.inr (List.mem_cons_of_mem x h)

theorem foldl_max_mem (xs : List ℚ) (a : ℚ) : xs.foldl max a = a ∨ xs.foldl max a ∈ xs := by
  induction xs generalizing a with
  | nil => exact Or.inl rfl
  | cons x xs ih =>
    rw [List.foldl_cons]
    rcases ih (max a x) with h | h
    · rcases max_choice a x with hm | hm
      · exact Or.inl (by rw [h, hm])
      · refine Or.inr ?_
        rw [h, hm]
        exact List.mem_cons_self x xs
    · exact Or.inr (List.mem_cons_of_mem x h)

theorem listMin_mem (obs : List ℚ) (h : obs ≠ []) : listMin obs ∈ obs := by
  match obs with
  | [] => exact absurd rfl h
  | x :: xs =>
    show xs.foldl min x ∈ x :: xs
    rcases foldl_min_mem xs x with h1 | h1
    · rw [h1]; exact List.mem_cons_self x xs
    · exact List.mem_cons_of_mem x h1

theorem listMax_mem (obs : List ℚ) (h : obs ≠ []) : listMax obs ∈ obs := by
  match obs with
  | [] => exact absurd rfl h
  | x :: xs =>
    show xs.foldl max x ∈ x :: xs
    rcases foldl_max_mem xs x with h1 | h1
    · rw [h1]; exact List.mem_cons_self x xs
    · exact List.mem_cons_of_mem x h1

theorem histLo_eq (obs : List ℚ) (hne : listMin obs ≠ listMax obs) :
    histLo obs = listMin obs := if_neg hne

theorem histHi_eq (obs : List ℚ) (hne : listMin obs ≠ listMax obs) :
    histHi obs = listMax obs := if_neg hne

theorem binWidth_pos (obs : List ℚ) (n : ℕ) (hn : 1 ≤ n)
    (hne : listMin obs < listMax obs) : 0 < binWidth obs n := by
  unfold binWidth
  rw [histLo_eq obs hne.ne, histHi_eq obs hne.ne]
  apply div_pos (by linarith)
  exact_mod_cast Nat.lt_of_lt_of_le Nat.zero_lt_one hn

theorem length_bin_edges (obs : List ℚ) (n : ℕ) : (bin_edges obs n).length = n + 1 := by
  unfold bin_edges
  rw [List.length_map, List.length_range]

theorem length_cum_values (obs : List ℚ) (n : ℕ) : (cum_values obs n).length = n + 1 := by
  unfold cum_values
  rw [List.length_scanl, List.length_zipWith]
  have h1 : (histDensity obs n).length = n := by
    unfold histDensity binCounts
    rw [List.length_map, List.length_map, List.length_range]
  have h2 : (diffList (bin_edges obs n)).length = n := by
    unfold diffList
    rw [List.length_zipWith, List.length_tail, length_bin_edges]
    omega
  rw [h1, h2]
  omega

theorem bin_edges_getD (obs : List ℚ) (n i : ℕ) (h : i ≤ n) :
    (bin_edges obs n).getD i 0 = histLo obs + i * binWidth obs n := by
  rw [List.getD_eq_getElem _ _ (by rw [length_bin_edges]; omega)]
  simp only [bin_edges, List.getElem_map, List.getElem_range]

theorem countP_idx_lt_succ (l : List ℚ) (g : ℚ → ℕ) (j : ℕ) :
    l.countP (fun x => decide (g x < j + 1)) =
      l.countP (fun x => decide (g x < j)) + l.countP (fun x => decide (g x = j)) := by
  induction l with
  | nil => rfl
  | cons o os ih =>
    simp only [List.countP_cons, ih, decide_eq_true_eq]
    split_ifs <;> omega

theorem sum_countP_range (l : List ℚ) (g : ℚ → ℕ) (j : ℕ) :
    ((List.range j).map fun i => l.countP fun x => decide (g x = i)).sum =
      l.countP fun x => decide (g x < j) := by
  induction j with
  | zero => simp
  | succ m ih =>
    rw [List.range_succ, List.map_append, List.sum_append, ih, countP_idx_lt_succ]
    simp

theorem binIdx_lt (obs : List ℚ) (n : ℕ) (hn : 1 ≤ n) (x : ℚ) : binIdx obs n x < n := by
  unfold binIdx
  omega

theorem binCounts_sum (obs : List ℚ) (n : ℕ) (hn : 1 ≤ n) :
    (binCounts obs n).sum = obs.length := by
  unfold binCounts
  rw [sum_countP_range obs (binIdx obs n) n]
  rw [List.countP_eq_length]
  intro a _
  simpa using binIdx_lt obs n hn a

theorem scanl_add_getD (l : List ℚ) (a : ℚ) (j : ℕ) (h : j ≤ l.length) :
    (l.scanl (· + ·) a).getD j 0 = a + (l.take j).sum := by
  induction l generalizing a j with
  | nil =>
    have hj : j = 0 := Nat.le_zero.mp h
    subst hj
    simp [List.scanl]
  | cons x xs ih =>
    cases j with
    | zero => simp [List.scanl]
    | succ m =>
      have hm : m ≤ xs.length := by simpa using h
      simp only [List.scanl, List.getD_cons_succ, List.take_succ_cons, List.sum_cons]
      rw [ih (a + x) m hm]
      ring

theorem length_binCounts (obs : List ℚ) (n : ℕ) : (binCounts obs n).length = n := by
  unfold binCounts
  rw [List.length_map, List.length_range]

theorem length_histDensity (obs : List ℚ) (n : ℕ) : (histDensity obs n).length = n := by
  unfold histDensity
  rw [List.length_map, length_binCounts]

theorem length_diffList_edges (obs : List ℚ) (n : ℕ) :
    (diffList (bin_edges obs n)).length = n := by
  unfold diffList
  rw [List.length_zipWith, List.length_tail, length_bin_edges]
  omega

theorem getD_map {α β : Type} (l : List α) (f : α → β) (i : ℕ) (d : α) (d' : β)
    (h : i < l.length) : (l.map f).getD i d' = f (l.getD i d) := by
  rw [List.getD_eq_getElem _ _ (by simpa using h), List.getD_eq_getElem _ _ h,
    List.getElem_map]

theorem binCounts_getD (obs : List ℚ) (n i : ℕ) (h : i < n) :
    (binCounts obs n).getD i 0 = obs.countP fun x => decide (binIdx obs n x = i) :=
  getD_map_range _ n i 0 h

theorem histDensity_getD (obs : List ℚ) (n i : ℕ) (h : i < n) :
    (histDensity obs n).getD i 0 =
      ((obs.countP fun x => decide (binIdx obs n x = i) : ℕ) : ℚ) /
        (((binCounts obs n).sum : ℚ) * binWidth obs n) := by
  unfold histDensity
  rw [getD_map (binCounts obs n) _ i 0 _ (by rw [length_binCounts]; exact h),
    binCounts_getD obs n i h]

theorem diffList_edges_getD (obs : List ℚ) (n i : ℕ) (h : i < n) :
    (diffList (bin_edges obs n)).getD i 0 = binWidth obs n := by
  unfold diffList
  rw [List.getD_eq_getElem _ _ (by rw [List.length_zipWith, List.length_tail, length_bin_edges]; omega)]
  rw [List.getElem_zipWith, List.getElem_tail]
  simp only [bin_edges, List.getElem_map, List.getElem_range]
  push_cast
  ring

theorem zipArr_eq (obs : List ℚ) (n : ℕ) (hw : binWidth obs n ≠ 0) :
    (histDensity obs n).zipWith (fun h d => h * d) (diffList (bin_edges obs n)) =
      (List.range n).map fun i =>
        ((obs.countP fun x => decide (binIdx obs n x = i) : ℕ) : ℚ) /
          ((binCounts obs n).sum : ℚ) := by
  apply List.ext_getElem
  · rw [List.length_zipWith, length_histDensity, length_diffList_edges,
      List.length_map, List.length_range]
    omega
  · intro i h1 h2
    have hi : i < n := by simpa using h2
    rw [List.getElem_zipWith, List.getElem_map, List.getElem_range]
    rw [← List.getD_eq_getElem (histDensity obs n) 0 (by rw [length_histDensity]; exact hi)]
    rw [← List.getD_eq_getElem (diffList (bin_edges obs n)) 0
      (by rw [length_diffList_edges]; exact hi)]
    rw [histDensity_getD obs n i hi, diffList_edges_getD obs n i hi]
    rw [div_mul_eq_mul_div, mul_comm ((binCounts obs n).sum : ℚ) (binWidth obs n),
      mul_comm _ (binWidth obs n), mul_div_mul_left _ _ hw]

theorem sum_map_div (S : ℚ) (f : ℕ → ℚ) (j : ℕ) :
    ((List.range j).map fun i => f i / S).sum = ((List.range j).map f).sum / S := by
  induction j with
  | zero => simp
  | succ m ih =>
    rw [List.range_succ, List.map_append, List.sum_append, List.map_append,
      List.sum_append, ih]
    simp [add_div]

theorem cast_sum_cnt (obs : List ℚ) (n j : ℕ) :
    ((List.range j).map fun i =>
        ((obs.countP fun x => decide (binIdx obs n x = i) : ℕ) : ℚ)).sum =
      ((obs.countP fun x => decide (binIdx obs n x < j) : ℕ) : ℚ) := by
  rw [← sum_countP_range obs (binIdx obs n) j, Nat.cast_list_sum, List.map_map]
  rfl

theorem length_zipArr (obs : List ℚ) (n : ℕ) :
    ((histDensity obs n).zipWith (fun h d => h * d) (diffList (bin_edges obs n))).length = n := by
  rw [List.length_zipWith, length_histDensity, length_diffList_edges]
  omega

theorem cum_values_getD (obs : List ℚ) (n : ℕ) (hw : binWidth obs n ≠ 0)
    (j : ℕ) (hj : j ≤ n) :
    (cum_values obs n).getD j 0 =
      ((obs.countP fun x => decide (binIdx obs n x < j) : ℕ) : ℚ) /
        ((binCounts obs n).sum : ℚ) := by
  unfold cum_values
  rw [scanl_add_getD _ _ j (by rw [length_zipArr]; exact hj), zero_add,
    zipArr_eq obs n hw, ← List.map_take, List.take_range, min_eq_left hj,
    sum_map_div, cast_sum_cnt]

theorem binIdx_listMin (obs : List ℚ) (n : ℕ) (hne : listMin obs ≠ listMax obs) :
    binIdx obs n (listMin obs) = 0 := by
  unfold binIdx
  rw [histLo_eq obs hne, sub_self, zero_div, Int.floor_zero, Int.toNat_zero]
  exact Nat.zero_min _

theorem bin_edges_bounds (obs : List ℚ) (n : ℕ) (hn : 1 ≤ n)
    (hne : listMin obs < listMax obs) (i : ℕ) (hi : i ≤ n) :
    listMin obs ≤ (bin_edges obs n).getD i 0 ∧
      (bin_edges obs n).getD i 0 ≤ listMax obs := by
  rw [bin_edges_getD obs n i hi, histLo_eq obs hne.ne]
  have hw := binWidth_pos obs n hn hne
  have hn0 : (n : ℚ) ≠ 0 := by
    have : (0 : ℚ) < n := by exact_mod_cast Nat.lt_of_lt_of_le Nat.zero_lt_one hn
    exact this.ne'
  constructor
  · nlinarith [mul_nonneg (Nat.cast_nonneg (α := ℚ) i) hw.le]
  · have hiw : (i : ℚ) * binWidth obs n ≤ (n : ℚ) * binWidth obs n :=
      mul_le_mul_of_nonneg_right (by exact_mod_cast hi) hw.le
    have hnw : (n : ℚ) * binWidth obs n = listMax obs - listMin obs := by
      unfold binWidth
      rw [histLo_eq obs hne.ne, histHi_eq obs hne.ne, mul_comm, div_mul_cancel₀ _ hn0]
    linarith

theorem interp_eval_bounds (xs ys : List ℚ) (n : ℕ) (hn : 1 ≤ n)
    (hxlen : xs.length = n + 1)
    (hx0 : xs.getD 0 0 = 0) (hxN : xs.getD n 0 = 1)
    (lo hi : ℚ)
    (hy : ∀ i, i ≤ n → lo ≤ ys.getD i 0 ∧ ys.getD i 0 ≤ hi)
    (u : ℚ) (hu0 : 0 ≤ u) (hu1 : u ≤ 1) :
    lo ≤ interp_eval xs ys u ∧ interp_eval xs ys u ≤ hi := by
  have hkub : xs.findIdx (fun x => decide (u ≤ x)) < n + 1 := by
    rw [← hxlen]
    apply List.findIdx_lt_length_of_exists
    refine ⟨xs.getD n 0, ?_, ?_⟩
    · rw [List.getD_eq_getElem _ _ (by rw [hxlen]; omega)]
      exact List.getElem_mem _
    · rw [hxN]
      simpa using hu1
  simp only [interp_eval]
  rw [hxlen]
  simp only [Nat.add_sub_cancel]
  generalize hKdef : xs.findIdx (fun x => decide (u ≤ x)) = K at hkub ⊢
  have hfound : u ≤ xs.getD K 0 := by
    have hb : K < xs.length := by rw [hxlen]; omega
    rw [List.getD_eq_getElem _ _ hb]
    have hw : List.findIdx (fun x => decide (u ≤ x)) xs < xs.length := by
      rw [hKdef]; exact hb
    have hp := @List.findIdx_getElem ℚ (fun x => decide (u ≤ x)) xs hw
    simp only [hKdef] at hp
    simpa using hp
  rcases Nat.lt_or_ge K 1 with hK0 | hK1
  · have hK : K = 0 := by omega
    subst hK
    rw [hx0] at hfound
    have hu : u = 0 := le_antisymm hfound hu0
    have hidx : min (max 0 1) n = 1 := by omega
    rw [hidx]
    have h10 : (1 : ℕ) - 1 = 0 := rfl
    rw [h10, hu, hx0, sub_self, zero_mul, zero_div, add_zero]
    exact hy 0 (by omega)
  · have hnotfound : xs.getD (K - 1) 0 < u := by
      have hb : K - 1 < xs.length := by rw [hxlen]; omega
      have hlt : K - 1 < xs.findIdx (fun x => decide (u ≤ x)) := by rw [hKdef]; omega
      have hp := List.not_of_lt_findIdx hlt
      rw [List.getD_eq_getElem _ _ hb]
      have hnle : ¬ (u ≤ xs.getD (K - 1) 0) := by
        rw [List.getD_eq_getElem _ _ hb]
        simpa using hp
      rw [← List.getD_eq_getElem _ _ hb]
      exact lt_of_not_le hnle
    have hidx : min (max K 1) n = K := by omega
    rw [hidx]
    have hKn : K ≤ n := by omega
    have hd : 0 < xs.getD K 0 - xs.getD (K - 1) 0 := by linarith
    obtain ⟨hy0l, hy0r⟩ := hy (K - 1) (by omega)
    obtain ⟨hy1l, hy1r⟩ := hy K hKn
    have ht1 : (u - xs.getD (K - 1) 0) / (xs.getD K 0 - xs.getD (K - 1) 0) ≤ 1 := by
      rw [div_le_one hd]
      linarith
    have ht0 : 0 ≤ (u - xs.getD (K - 1) 0) / (xs.getD K 0 - xs.getD (K - 1) 0) :=
      div_nonneg (by linarith) hd.le
    have hrw : (u - xs.getD (K - 1) 0) * (ys.getD K 0 - ys.getD (K - 1) 0) /
        (xs.getD K 0 - xs.getD (K - 1) 0) =
        ((u - xs.getD (K - 1) 0) / (xs.getD K 0 - xs.getD (K - 1) 0)) *
          (ys.getD K 0 - ys.getD (K - 1) 0) := by
      ring
    rw [hrw]
    constructor
    · nlinarith [mul_nonneg (sub_nonneg.mpr ht1) (sub_nonneg.mpr hy0l),
        mul_nonneg ht0 (sub_nonneg.mpr hy1l)]
    · nlinarith [mul_nonneg (sub_nonneg.mpr ht1) (sub_nonneg.mpr hy0r),
        mul_nonneg ht0 (sub_nonneg.mpr hy1r)]

theorem interp_within (obs : List ℚ) (n : ℕ) (hn : 1 ≤ n)
    (hne : listMin obs < listMax obs) (hobs : obs ≠ [])
    (u : ℚ) (hu0 : 0 ≤ u) (hu1 : u ≤ 1) :
    listMin obs ≤ interp_eval (cum_values obs n) (bin_edges obs n) u ∧
      interp_eval (cum_values obs n) (bin_edges obs n) u ≤ listMax obs := by
  have hw0 := binWidth_pos obs n hn hne
  have hw : binWidth obs n ≠ 0 := hw0.ne'
  have hLpos : 0 < obs.length := List.length_pos.mpr hobs
  have hS : (binCounts obs n).sum = obs.length := binCounts_sum obs n hn
  have hSQ : ((binCounts obs n).sum : ℚ) ≠ 0 := by
    rw [hS]
    exact_mod_cast hLpos.ne'
  apply interp_eval_bounds (cum_values obs n) (bin_edges obs n) n hn
    (length_cum_values obs n)
  · rw [cum_values_getD obs n hw 0 (Nat.zero_le n)]
    simp
  · rw [cum_values_getD obs n hw n le_rfl]
    have hall : obs.countP (fun x => decide (binIdx obs n x < n)) = obs.length := by
      rw [List.countP_eq_length]
      intro a _
      simpa using binIdx_lt obs n hn a
    rw [hall, ← hS]
    exact div_self hSQ
  · exact fun i hi => bin_edges_bounds obs n hn hne i hi
  · exact hu0
  · exact hu1

/-- C4, amended: for a continuous empirical distribution built from
observations that are not all equal, generate stays within the closed
interval from the minimum to the maximum observation for each of the
draws zero, one half and one. -/
theorem c4_generate_within_range (obs : List ℚ) (d : ContinuousEmpiricalDistribution)
    (u : ℚ)
    (hinit : ContinuousEmpiricalDistribution.init (some obs) none none = .ok d)
    (hne : listMin obs < listMax obs)
    (hu : u = 0 ∨ u = 1/2 ∨ u = 1) :
    ∃ y, d.generate u = some y ∧ listMin obs ≤ y ∧ y ≤ listMax obs := by
  have hobs : obs ≠ [] := by
    rintro rfl
    simp [listMin, listMax] at hne
  have hu0 : 0 ≤ u := by rcases hu with rfl | rfl | rfl <;> norm_num
  have hu1 : u ≤ 1 := by rcases hu with rfl | rfl | rfl <;> norm_num
  dsimp only [ContinuousEmpiricalDistribution.init] at hinit
  by_cases hlen : obs.length < MINIMUM_OBSERVATIONS
  · rw [if_pos hlen] at hinit
    exact absurd hinit (by simp)
  · rw [if_neg hlen] at hinit
    have hd : d = ⟨none, none, some obs, some (cum_values obs 40, bin_edges obs 40)⟩ :=
      (Except.ok.inj hinit).symm
    subst hd
    refine ⟨interp_eval (cum_values obs 40) (bin_edges obs 40) u, rfl, ?_, ?_⟩
    · exact (interp_within obs 40 (by norm_num) hne hobs u hu0 hu1).1
    · exact (interp_within obs 40 (by norm_num) hne hobs u hu0 hu1).2

/-- C4 witness: the distribution built from one, two, three keeps the
draw zero within the observation range. -/
theorem c4_generate_within_range_witness :
    ∃ y, cedFromThree.generate 0 = some y ∧
      listMin [1, 2, 3] ≤ y ∧ y ≤ listMax [1, 2, 3] :=
  c4_generate_within_range [1, 2, 3] cedFromThree 0 (by with_unfolding_all rfl)
    (by with_unfolding_all decide) (Or.inl rfl)
